/-
Verification of the OpenClaw Voice per-connection turn pipeline.

This file gives a shallow embedding, in Lean 4, of the core data model and
operations of the voice server:

* `resample_pcm16`    — the pure PCM16 linear-interpolation resampler
                        (src/server/main.py, `_resample_pcm16`).  Machine
                        floats are modelled by exact rationals; the float
                        `round` is modelled by round-half-to-even, and the
                        `astype(int16)` conversion by truncation toward zero.
* sentence extraction — the sentence-boundary loop of the responding phase
                        (src/server/main.py, lines 415-445) on `List Char`;
                        Python `str.strip()` is modelled by `trimChars` /
                        `pyStrip` (drop leading and trailing whitespace).
* realtime ASR session — the consumer-visible state of
                        `AliyunASRRealtimeSession` (src/server/aliyun_stt.py):
                        `drain_events` state updates and
                        `stop_and_get_transcript`, with the timed polling
                        loop modelled by a fuel-indexed loop over the
                        batches of events that arrive at each poll tick.
* the turn pipeline   — the `websocket_endpoint` message loop
                        (src/server/main.py, lines 318-519) as a transition
                        system over connection states, parametric in the
                        external collaborators (batch STT, chat backend,
                        TTS, local VAD, text cleaning), which the spec
                        declares as opaque capability providers.

Emitted websocket events and outbound collaborator calls are recorded in a
single action trace, so ordering and exactly-once properties are statements
about concrete lists.
-/

import Mathlib


/-! ## Resampler (src/server/main.py, `_resample_pcm16`) -/

/-- Python `round` (banker's rounding, half to even) on an exact rational. -/
def roundHalfEven (q : ℚ) : ℤ :=
  if q - ⌊q⌋ < 1/2 then ⌊q⌋
  else if q - ⌊q⌋ > 1/2 then ⌊q⌋ + 1
  else if ⌊q⌋ % 2 = 0 then ⌊q⌋ else ⌊q⌋ + 1

/-- `numpy` float→int16 conversion: truncation toward zero. -/
def truncQ (q : ℚ) : ℤ := if 0 ≤ q then ⌊q⌋ else ⌈q⌉

/-- `np.clip(x, -32768, 32767)`. -/
def clipQ (q : ℚ) : ℚ := max (-32768) (min 32767 q)

/-- `np.interp(x, src_idx, src)` against the integer grid `0, 1, …, len-1`:
linear interpolation between adjacent samples, last sample at/past the end. -/
def interpAt (src : List ℤ) (x : ℚ) : ℚ :=
  let j := (⌊x⌋).toNat
  if j + 1 < src.length then
    ((src.getD j 0 : ℤ) : ℚ)
      + (x - (j : ℚ)) * (((src.getD (j + 1) 0 : ℤ) : ℚ) - ((src.getD j 0 : ℤ) : ℚ))
  else ((src.getD (src.length - 1) 0 : ℤ) : ℚ)

/-- The `np.linspace(0, src_len - 1, num := dst_len)` grid, point number `i`. -/
def dstPos (srcLen dstLen : ℕ) (i : ℕ) : ℚ :=
  if dstLen = 1 then 0 else (i : ℚ) * ((srcLen : ℚ) - 1) / ((dstLen : ℚ) - 1)

/-- `_resample_pcm16` from src/server/main.py, on the decoded 16-bit sample
sequence (the byte buffer is a fixed-width encoding of this list). -/
def resample_pcm16 (samples : List ℤ) (src_rate dst_rate : ℕ) : List ℤ :=
  if src_rate = dst_rate ∨ samples = [] then samples
  else
    let src_len := samples.length
    let dst_len := max 1 (roundHalfEven ((src_len : ℚ) * (dst_rate : ℚ) / (src_rate : ℚ))).toNat
    (List.range dst_len).map (fun i => truncQ (clipQ (interpAt samples (dstPos src_len dst_len i))))

/-! ## Whitespace trimming (Python `str.strip()`) -/

/-- `str.strip()` on a character list: drop leading and trailing whitespace. -/
def trimChars (xs : List Char) : List Char :=
  ((xs.dropWhile Char.isWhitespace).reverse.dropWhile Char.isWhitespace).reverse

/-- `str.strip()` on strings. -/
def pyStrip (s : String) : String := (trimChars s.toList).asString

/-! ## Sentence segmentation (src/server/main.py, lines 415-445)

The responding phase scans the growing `sentence_buffer` for the terminator
set `['. ', '! ', '? ', '.\n', '!\n', '?\n']`, repeatedly cutting the buffer
after the terminator whose occurrence wins the scan, stripping the cut-off
prefix and emitting it when non-empty. -/

/-- `sentence_buffer.find(sep)`: index of the first occurrence, if any. -/
def findSub : List Char → List Char → Option ℕ
  | [], needle => if needle.isPrefixOf ([] : List Char) then some 0 else none
  | c :: rest, needle =>
    if needle.isPrefixOf (c :: rest) then some 0
    else (findSub rest needle).map (· + 1)

/-- The sentence terminator candidates, in the order the code tries them. -/
def seps : List (List Char) :=
  [". ", "! ", "? ", ".\n", "!\n", "?\n"].map String.toList

/-- One step of the `for sep in [...]` scan over the candidate terminators:
`if idx != -1 and idx < earliest_idx: earliest_idx = idx + len(sep)`. -/
def scanStep (buf : List Char) (acc : ℕ) (sep : List Char) : ℕ :=
  match findSub buf sep with
  | some idx => if idx < acc then idx + sep.length else acc
  | none => acc

/-- The full scan, starting from `earliest_idx = len(sentence_buffer)`. -/
def scanSeps (buf : List Char) : ℕ := seps.foldl (scanStep buf) buf.length

/-- The body of the `while any(sep in sentence_buffer ...)` extraction loop,
with explicit fuel (each iteration strictly shortens the buffer, so
`buf.length` fuel is enough; see `extractGo_fuel`). -/
def extractGo : ℕ → List Char → List (List Char) × List Char
  | 0, buf => ([], buf)
  | fuel + 1, buf =>
    if seps.any (fun sep => (findSub buf sep).isSome) then
      if scanSeps buf < buf.length then
        let sentence := trimChars (buf.take (scanSeps buf))
        let rest := extractGo fuel (buf.drop (scanSeps buf))
        (if sentence.isEmpty then rest.1 else sentence :: rest.1, rest.2)
      else ([], buf)
    else ([], buf)

/-- The `while any(sep in sentence_buffer ...)` extraction loop: returns the
non-empty stripped sentences cut off (in order) and the final remainder. -/
def extractSentences (buf : List Char) : List (List Char) × List Char :=
  extractGo buf.length buf

/-- Streaming use of the extractor (src/server/main.py, lines 404-425): each
arriving fragment is appended to the remainder buffer and the completed
sentences are cut off. -/
def feedFragments (buf : List Char) : List (List Char) → List (List Char) × List Char
  | [] => ([], buf)
  | f :: fs =>
    let r1 := extractSentences (buf ++ f)
    let r2 := feedFragments r1.2 fs
    (r1.1 ++ r2.1, r2.2)

/-- All sentences produced for a full fragment stream, including the final
flush of a non-empty stripped remainder (src/server/main.py, lines 447-449). -/
def streamSentences (frags : List String) : List (List Char) :=
  let r := feedFragments [] (frags.map String.toList)
  r.1 ++ (if (trimChars r.2).isEmpty then [] else [trimChars r.2])

/-! ## Realtime ASR session (src/server/aliyun_stt.py, `AliyunASRRealtimeSession`)

The external engine pushes events into a queue from a background thread; the
pipeline drains them.  We model the queue's contents as scripted batches: the
list of events obtained by each `drain_events()` call. -/

/-- The event records put on the session queue by `_RealtimeCallback`. -/
inductive RTEvent where
  | speech_started : RTEvent
  | speech_stopped : RTEvent
  | partialText (t : String) : RTEvent
  | finalText (t : String) : RTEvent
  | closed : RTEvent
deriving DecidableEq

/-- The transcript-relevant session state mutated by `drain_events`. -/
structure RTCore where
  final_transcript : String := ""
  partial_transcript : String := ""
  saw_speech_started : Bool := false
deriving DecidableEq

/-- The per-event state update in the body of `drain_events`
(src/server/aliyun_stt.py, lines 247-253). -/
def apply_event (c : RTCore) (e : RTEvent) : RTCore :=
  let c1 := match e with
    | RTEvent.speech_started => { c with saw_speech_started := true }
    | _ => c
  match e with
  | RTEvent.finalText t => { c1 with final_transcript := pyStrip t }
  | RTEvent.partialText t => { c1 with partial_transcript := pyStrip t }
  | _ => c1

/-- One `drain_events()` call, given the batch of queued events it drains. -/
def drain_events (c : RTCore) (batch : List RTEvent) : RTCore :=
  batch.foldl apply_event c

/-- The `while time.time() < deadline` polling loop of
`stop_and_get_transcript` (src/server/aliyun_stt.py, lines 270-275): each
iteration drains the next batch of arrived events, breaks once a final
transcript is present, else sleeps and retries until the deadline.  `fuel`
is the number of poll iterations the deadline allows; the returned list is
the share of the batch script not yet consumed. -/
def stopLoop : ℕ → List (List RTEvent) → RTCore → RTCore × List (List RTEvent)
  | 0, bs, c => (c, bs)
  | fuel + 1, bs, c =>
    let c1 := drain_events c (bs.headD [])
    if c1.final_transcript ≠ "" then (c1, bs.tail)
    else stopLoop fuel bs.tail c1

/-- `stop_and_get_transcript` (src/server/aliyun_stt.py, lines 257-278):
run the deadline-bounded poll loop, do one more `drain_events()`, and return
`final_transcript or partial_transcript or ""` together with the session
state at return time. -/
def stop_and_get_transcript (fuel : ℕ) (bs : List (List RTEvent)) (c : RTCore) :
    String × RTCore :=
  let r := stopLoop fuel bs c
  let c2 := drain_events r.1 (r.2.headD [])
  (if c2.final_transcript ≠ "" then c2.final_transcript
   else if c2.partial_transcript ≠ "" then c2.partial_transcript
   else "", c2)

/-! ## Turn pipeline (src/server/main.py, `websocket_endpoint`)

The per-connection message loop, as a transition system.  External
collaborators (batch STT, chat backend, TTS, local VAD, text cleaning) are
the opaque capability providers of the spec's §6 and are passed in as pure
oracles; the realtime session's asynchronous event arrivals and failure
points are scripted per turn.  Every websocket emission and every outbound
collaborator call is recorded in the action trace. -/

/-- What `stop_and_get_transcript` does for this turn: either completes
(with the poll-tick fuel the 3 s deadline allows and the event batches
arriving at each tick), or raises after some batches were drained. -/
inductive StopBehavior where
  | ok (fuel : ℕ) (batches : List (List RTEvent)) : StopBehavior
  | raises (drained : List (List RTEvent)) : StopBehavior
deriving DecidableEq

/-- The scripted behaviour of one realtime session: for each `audio` message,
either `append_audio_float32`/`drain_events` raises (`none`, caught at
src/server/main.py line 507) or it drains the given batch; plus the stop
behaviour.  Messages beyond the script's length drain nothing. -/
structure RTScript where
  perChunk : List (Option (List RTEvent))
  stop : StopBehavior
deriving DecidableEq

/-- A live realtime session: its script, its `drain_events` state, and how
many `audio` messages it has seen. -/
structure RTSession where
  script : RTScript
  core : RTCore
  idx : ℕ
deriving DecidableEq

/-- Session evolution for one `audio` message (append + drain, or the
caught append/drain failure). -/
def stepSession (sess : RTSession) : RTSession :=
  match sess.script.perChunk.getD sess.idx (some []) with
  | none => { sess with idx := sess.idx + 1 }
  | some evs => { sess with core := drain_events sess.core evs, idx := sess.idx + 1 }

/-- The turn's `stop_and_get_transcript` call (src/server/main.py lines
365-370): its return value, or `""` with the partial state updates when it
raises (the exception is caught and logged). -/
def rtStop (sess : RTSession) : String × RTCore :=
  match sess.script.stop with
  | StopBehavior.raises ds => ("", ds.foldl drain_events sess.core)
  | StopBehavior.ok fuel batches => stop_and_get_transcript fuel batches sess.core

/-- Server→client events (the `send_json` payloads of the endpoint). -/
inductive SEvent where
  | listening_started : SEvent
  | vad_status (speech : Bool) (evt : Option String) : SEvent
  | listening_stopped : SEvent
  | transcript (text : String) : SEvent
  | response_chunk (text : String) : SEvent
  | audio_chunk (data : List ℤ) (rate : ℕ) : SEvent
  | response_complete (text : String) : SEvent
  | pong : SEvent
deriving DecidableEq

/-- One observable action of the pipeline: an emitted event or an outbound
collaborator call (`stt.transcribe`, `backend.chat_stream`,
`tts.synthesize_stream`). -/
inductive Act where
  | emit (e : SEvent) : Act
  | callBatch (audio : List ℚ) : Act
  | callChat (msg : String) : Act
  | callTTS (text : String) : Act
deriving DecidableEq

/-- Client→server messages. -/
inductive CMsg where
  | start_listening : CMsg
  | stop_listening : CMsg
  | audio (samples : List ℚ) : CMsg
  | ping : CMsg

/-- The endpoint's per-connection mutable state (src/server/main.py lines
320-323): the audio buffer (a list of float32 chunks), the listening flag
and the optional realtime session. -/
structure ConnState where
  audio_buffer : List (List ℚ)
  is_listening : Bool
  asr_session : Option RTSession
deriving DecidableEq

/-- The fresh connection state. -/
def initConn : ConnState := { audio_buffer := [], is_listening := false, asr_session := none }

/-- The injected environment: startup facts plus the external collaborators
of spec §6, as pure oracles.  `sessionScript = none` means
`stt.create_session()` / `session.start()` raised for this turn. -/
structure Env where
  hasCreateSession : Bool
  sessionScript : Option RTScript
  vadLoaded : Bool
  vadIsSpeech : List ℚ → Bool
  batchTranscribe : List ℚ → String
  chatChunks : String → List String
  ttsChunks : String → List (List ℤ)
  clean : String → String
  outRate : ℕ

/-- The startup configuration facts that matter to the endpoint
(src/server/main.py lines 133-156 and 206-212). -/
structure Config where
  stt_provider : String
  aliyun_asr_mode : String

/-- `hasattr(stt, "create_session")`: only `AliyunASRRealtimeFactory` has a
session factory, and startup instals it exactly for the aliyun realtime
configuration. -/
def cfgHasCreateSession (c : Config) : Bool :=
  c.stt_provider == "aliyun" && !(c.aliyun_asr_mode == "batch")

/-- `vad is not None`: startup skips the local VAD exactly in the aliyun
realtime configuration (src/server/main.py lines 206-212). -/
def cfgVadLoaded (c : Config) : Bool :=
  !(c.stt_provider == "aliyun" && !(c.aliyun_asr_mode == "batch"))

/-- The `vad_status` notifications produced while iterating one drained
event batch (src/server/main.py lines 493-506). -/
def vadEventActs (evs : List RTEvent) : List Act :=
  evs.filterMap (fun e => match e with
    | RTEvent.speech_started =>
        some (Act.emit (SEvent.vad_status true (some "speech_started")))
    | RTEvent.speech_stopped =>
        some (Act.emit (SEvent.vad_status false (some "speech_stopped")))
    | _ => none)

/-- The `start_listening` handler (src/server/main.py lines 330-346). -/
def handleStart (env : Env) (_st : ConnState) : ConnState × List Act :=
  ({ audio_buffer := [], is_listening := true,
     asr_session :=
       if env.hasCreateSession then
         env.sessionScript.map (fun scr => { script := scr, core := {}, idx := 0 })
       else none },
   [Act.emit SEvent.listening_started])

/-- The `audio` handler (src/server/main.py lines 483-516): append to the
buffer; with a session, forward + drain and translate speech events into
`vad_status`; without one, consult the local VAD when present. -/
def handleAudio (env : Env) (st : ConnState) (samples : List ℚ) : ConnState × List Act :=
  if st.is_listening then
    let st1 := { st with audio_buffer := st.audio_buffer ++ [samples] }
    match st1.asr_session with
    | some sess =>
        ({ st1 with asr_session := some (stepSession sess) },
         match sess.script.perChunk.getD sess.idx (some []) with
         | none => []
         | some evs => vadEventActs evs)
    | none =>
        if env.vadLoaded ∧ samples ≠ [] then
          (st1, [Act.emit (SEvent.vad_status (env.vadIsSpeech samples) none)])
        else (st1, [])
  else (st, [])

/-- `float(np.mean(np.abs(audio_data)))`. -/
def meanAbs (xs : List ℚ) : ℚ := (xs.map (fun x => |x|)).sum / xs.length

/-- The TTS dispatch for one completed sentence (src/server/main.py lines
427-443): clean it, and when non-empty synthesize it, resampling each audio
chunk from the engine's 24 kHz to the configured output rate. -/
def synthSentence (env : Env) (sentence : List Char) : List Act :=
  let speech := env.clean sentence.asString
  if speech ≠ "" then
    Act.callTTS speech ::
      (env.ttsChunks speech).map (fun ch =>
        Act.emit (SEvent.audio_chunk (resample_pcm16 ch 24000 env.outRate) env.outRate))
  else []

/-- Processing of one streamed response chunk (src/server/main.py lines
404-445): accumulate it, forward it as `response_chunk`, then cut and
synthesize every completed sentence. -/
def respStep (env : Env) (acc : String × List Char × List Act) (chunk : String) :
    String × List Char × List Act :=
  let r := extractSentences (acc.2.1 ++ chunk.toList)
  (acc.1 ++ chunk, r.2,
   acc.2.2 ++ Act.emit (SEvent.response_chunk chunk) :: (r.1.map (synthSentence env)).flatten)

/-- The whole responding phase for a non-empty transcript (src/server/main.py
lines 396-469): stream the chat response, synthesize sentence by sentence,
flush the stripped leftover, and close with `response_complete` carrying the
full accumulated text. -/
def respondActs (env : Env) (transcript : String) : List Act :=
  let res := (env.chatChunks transcript).foldl (respStep env) ("", [], [])
  Act.callChat transcript :: res.2.2
    ++ (if (trimChars res.2.1).isEmpty then [] else synthSentence env (trimChars res.2.1))
    ++ [Act.emit (SEvent.response_complete res.1)]

/-- Transcript resolution on `stop_listening` (src/server/main.py lines
354-387): prefer the realtime result; fall back to batch transcription only
when audio was buffered, the realtime transcript strips to empty, and speech
was plausibly present (no session, a speech-start event, or mean amplitude
above 0.008).  Returns the resolved transcript and whether batch
transcription ran. -/
def stopResolution (env : Env) (st : ConnState) : String × Bool :=
  let audioData := st.audio_buffer.flatten
  let energy : ℚ := if audioData ≠ [] then meanAbs audioData else 0
  let rt : String × Option RTCore :=
    match st.asr_session with
    | none => ("", none)
    | some sess => ((rtStop sess).1, some (rtStop sess).2)
  let sawSpeech : Bool := match rt.2 with | some c => c.saw_speech_started | none => false
  let shouldBatch : Bool :=
    (!st.audio_buffer.isEmpty) && (pyStrip rt.1 == "") &&
      (st.asr_session.isNone || sawSpeech || decide (energy > 8/1000))
  (if shouldBatch then env.batchTranscribe audioData else rt.1, shouldBatch)

/-- The `stop_listening` handler (src/server/main.py lines 348-481). -/
def handleStop (env : Env) (st : ConnState) : ConnState × List Act :=
  let r := stopResolution env st
  ({ audio_buffer := [], is_listening := false, asr_session := none },
   Act.emit SEvent.listening_stopped ::
     (if r.2 then [Act.callBatch st.audio_buffer.flatten] else [])
     ++ Act.emit (SEvent.transcript r.1)
     :: (if pyStrip r.1 ≠ "" then respondActs env r.1
         else [Act.emit (SEvent.response_complete "")]))

/-- Dispatch of one client message (the `while True` body). -/
def processMsg (env : Env) (st : ConnState) : CMsg → ConnState × List Act
  | CMsg.start_listening => handleStart env st
  | CMsg.stop_listening => handleStop env st
  | CMsg.audio samples => handleAudio env st samples
  | CMsg.ping => (st, [Act.emit SEvent.pong])

/-- Run a sequence of client messages, concatenating the action traces. -/
def runMsgs (env : Env) (st : ConnState) : List CMsg → ConnState × List Act
  | [] => (st, [])
  | m :: ms =>
    let r := processMsg env st m
    let rs := runMsgs env r.1 ms
    (rs.1, r.2 ++ rs.2)

/-- The messages of one full turn: `start_listening`, the audio chunks,
`stop_listening`. -/
def turnMsgs (chunks : List (List ℚ)) : List CMsg :=
  CMsg.start_listening :: chunks.map CMsg.audio ++ [CMsg.stop_listening]

/-- The action trace of one full turn, from any prior connection state. -/
def turnTrace (env : Env) (st0 : ConnState) (chunks : List (List ℚ)) : List Act :=
  (runMsgs env st0 (turnMsgs chunks)).2

/-- The connection state on which the turn's `stop_listening` executes. -/
def turnStopState (env : Env) (st0 : ConnState) (chunks : List (List ℚ)) : ConnState :=
  (runMsgs env (handleStart env st0).1 (chunks.map CMsg.audio)).1

/-- The transcript resolved (and emitted in the `transcript` event) by the
turn. -/
def turnTranscript (env : Env) (st0 : ConnState) (chunks : List (List ℚ)) : String :=
  (stopResolution env (turnStopState env st0 chunks)).1

/-- Whether the turn invoked batch transcription. -/
def turnShouldBatch (env : Env) (st0 : ConnState) (chunks : List (List ℚ)) : Bool :=
  (stopResolution env (turnStopState env st0 chunks)).2

/-! ## Trace structure lemmas -/

/-- Action classifications used by the ordering statements. -/
def isVadAct (a : Act) : Prop := ∃ b e, a = Act.emit (SEvent.vad_status b e)

def isMidAct (a : Act) : Prop :=
  (∃ s, a = Act.callChat s) ∨ (∃ s, a = Act.callTTS s) ∨
    (∃ s, a = Act.emit (SEvent.response_chunk s)) ∨
    (∃ d r, a = Act.emit (SEvent.audio_chunk d r))

/-- A concrete collaborator environment used by the closed witnesses. -/
def sampleEnv : Env :=
  { hasCreateSession := false, sessionScript := none, vadLoaded := true,
    vadIsSpeech := fun _ => false, batchTranscribe := fun _ => "hello",
    chatChunks := fun _ => ["Ok."], ttsChunks := fun _ => [[7]],
    clean := fun s => s, outRate := 16000 }

/-- The server→client events of a trace (collaborator calls dropped). -/
def emits (tr : List Act) : List SEvent :=
  tr.filterMap (fun a => match a with | Act.emit e => some e | _ => none)

/-- No batch of the list carries a speech-start event. -/
def noSpeechStartBatches (bs : List (List RTEvent)) : Prop :=
  ∀ b ∈ bs, RTEvent.speech_started ∉ b

/-- The whole session script delivers no speech-start event (neither while
listening nor during the stop call). -/
def scriptNoSpeechStart (scr : RTScript) : Prop :=
  (∀ ob ∈ scr.perChunk, ∀ evs, ob = some evs → RTEvent.speech_started ∉ evs) ∧
    (match scr.stop with
     | StopBehavior.ok _ batches => noSpeechStartBatches batches
     | StopBehavior.raises ds => noSpeechStartBatches ds)

/-- A concrete environment whose realtime session succeeds, sees no speech
and returns an empty transcript. -/
def silentEnv : Env :=
  { hasCreateSession := true,
    sessionScript := some { perChunk := [], stop := StopBehavior.ok 0 [] },
    vadLoaded := false, vadIsSpeech := fun _ => false,
    batchTranscribe := fun _ => "spurious", chatChunks := fun _ => [],
    ttsChunks := fun _ => [], clean := fun s => s, outRate := 16000 }

/-- A concrete environment whose realtime session returns `"hi"` on stop. -/
def rtHitEnv : Env :=
  { hasCreateSession := true,
    sessionScript := some (RTScript.mk [] (StopBehavior.ok 1 [[RTEvent.finalText "hi"]])),
    vadLoaded := false, vadIsSpeech := fun _ => false,
    batchTranscribe := fun _ => "spurious", chatChunks := fun _ => [],
    ttsChunks := fun _ => [], clean := fun s => s, outRate := 16000 }

/-- Bool-level test for a `vad_status` emission. -/
def isVadActB (a : Act) : Bool :=
  match a with
  | Act.emit (SEvent.vad_status _ _) => true
  | _ => false

/-- The realtime configuration whose session creation raises, with a local
VAD oracle that would report speech. -/
def failEnv : Env :=
  { hasCreateSession := true, sessionScript := none,
    vadLoaded := false, vadIsSpeech := fun _ => true,
    batchTranscribe := fun _ => "", chatChunks := fun _ => [],
    ttsChunks := fun _ => [], clean := fun s => s, outRate := 16000 }

/-! ## Sequential per-sentence synthesis (C6) -/

/-- Bool-level test for a synthesis-related action: the start of a
sentence's synthesis (`callTTS`) or one of its emitted audio chunks. -/
def isAudioActB (a : Act) : Bool :=
  match a with
  | Act.callTTS _ => true
  | Act.emit (SEvent.audio_chunk _ _) => true
  | _ => false


theorem foldl_scanStep_pos (buf : List Char) (l : List (List Char))
    (hl : ∀ s ∈ l, s ≠ []) :
    ∀ acc, (acc = buf.length ∨ 0 < acc) →
      (l.foldl (scanStep buf) acc = buf.length ∨ 0 < l.foldl (scanStep buf) acc) := by
  induction l with
  | nil => intro acc h; exact h
  | cons s t ih =>
    intro acc h
    refine ih (fun x hx => hl x (List.mem_cons_of_mem _ hx)) _ ?_
    unfold scanStep
    cases hfind : findSub buf s with
    | none => exact h
    | some idx =>
      by_cases hidx : idx < acc
      · right
        simp only [hidx, if_pos]
        have hs : s ≠ [] := hl s (List.mem_cons_self _ _)
        have : 0 < s.length := List.length_pos.mpr hs
        omega
      · simp only [hidx, if_neg, if_false]
        exact h

/-- If any terminator occurs, the scan result is positive; otherwise it is
the buffer length (so the cut below always removes at least one character). -/
theorem scanSeps_eq_or_pos (buf : List Char) :
    scanSeps buf = buf.length ∨ 0 < scanSeps buf :=
  foldl_scanStep_pos buf seps (by decide) _ (Or.inl rfl)

/-- Any fuel of at least the buffer length computes the loop's fixpoint. -/
theorem extractGo_fuel :
    ∀ (fuel fuel' : ℕ) (buf : List Char), buf.length ≤ fuel → buf.length ≤ fuel' →
      extractGo fuel buf = extractGo fuel' buf := by
  intro fuel
  induction fuel with
  | zero =>
    intro fuel' buf h h'
    have hb : buf = [] := List.length_eq_zero.mp (Nat.le_zero.mp h)
    subst hb
    cases fuel' with
    | zero => rfl
    | succ n => simp [extractGo, seps, findSub]
  | succ n ih =>
    intro fuel' buf h h'
    cases fuel' with
    | zero =>
      have hb : buf = [] := List.length_eq_zero.mp (Nat.le_zero.mp h')
      subst hb
      simp [extractGo, seps, findSub]
    | succ m =>
      simp only [extractGo]
      by_cases h1 : (seps.any (fun sep => (findSub buf sep).isSome)) = true
      · simp only [h1, if_true]
        by_cases h2 : scanSeps buf < buf.length
        · simp only [h2, if_pos]
          have hpos : 0 < scanSeps buf := by
            rcases scanSeps_eq_or_pos buf with he | hp
            · omega
            · exact hp
          have hlen : (buf.drop (scanSeps buf)).length ≤ n := by
            simp only [List.length_drop]; omega
          have hlen' : (buf.drop (scanSeps buf)).length ≤ m := by
            simp only [List.length_drop]; omega
          rw [ih _ _ hlen hlen']
        · simp [h2]
      · simp [h1]

/-- Every run of the extraction loop cuts the buffer into consecutive parts:
the emitted sentences are the stripped non-empty parts, in text order, and
the remainder is what follows the last part.  No character is used twice and
only stripping (of whitespace) and dropping of all-whitespace parts lose
characters. -/
theorem extractGo_decomp :
    ∀ (fuel : ℕ) (buf : List Char), ∃ parts : List (List Char),
      parts.flatten ++ (extractGo fuel buf).2 = buf ∧
      (extractGo fuel buf).1 = (parts.map trimChars).filter (fun s => !s.isEmpty) := by
  intro fuel
  induction fuel with
  | zero => intro buf; exact ⟨[], by simp [extractGo]⟩
  | succ n ih =>
    intro buf
    simp only [extractGo]
    by_cases h1 : (seps.any (fun sep => (findSub buf sep).isSome)) = true
    · by_cases h2 : scanSeps buf < buf.length
      · simp only [h1, h2, if_true, if_pos]
        obtain ⟨parts, hjoin, hsent⟩ := ih (buf.drop (scanSeps buf))
        refine ⟨buf.take (scanSeps buf) :: parts, ?_, ?_⟩
        · simp only [List.flatten_cons, List.append_assoc, hjoin]
          exact List.take_append_drop _ buf
        · simp only [List.map_cons, List.filter_cons, hsent]
          by_cases h3 : (trimChars (buf.take (scanSeps buf))).isEmpty = true
          · simp [h3]
          · simp [h3]
      · simp only [h1, h2, if_true, if_neg, if_false]
        exact ⟨[], by simp⟩
    · simp only [h1, if_false]
      exact ⟨[], by simp⟩

/-- `dropWhile` by a predicate does not change the elements failing it. -/
theorem filter_not_dropWhile (p : Char → Bool) (l : List Char) :
    (l.dropWhile p).filter (fun c => !p c) = l.filter (fun c => !p c) := by
  induction l with
  | nil => rfl
  | cons c t ih =>
    by_cases h : p c = true
    · simp [List.dropWhile_cons, List.filter_cons, h, ih]
    · simp [List.dropWhile_cons, List.filter_cons, h]

/-- `filter` commutes with `reverse`. -/
theorem filter_reverse_eq (p : Char → Bool) (l : List Char) :
    l.reverse.filter p = (l.filter p).reverse := by
  induction l with
  | nil => rfl
  | cons c t ih =>
    simp only [List.reverse_cons, List.filter_append, List.filter_cons, ih]
    by_cases h : p c = true <;> simp [h]

/-- Stripping only removes whitespace: the non-whitespace characters (and
their order) are untouched. -/
theorem filter_nonws_trimChars (l : List Char) :
    (trimChars l).filter (fun c => !c.isWhitespace) = l.filter (fun c => !c.isWhitespace) := by
  unfold trimChars
  rw [filter_reverse_eq, filter_not_dropWhile, filter_reverse_eq,
    List.reverse_reverse, filter_not_dropWhile]

/-- Dropping empty lists does not change the concatenation. -/
theorem join_filter_nonEmpty (L : List (List Char)) :
    (L.filter (fun s => !s.isEmpty)).flatten = L.flatten := by
  induction L with
  | nil => rfl
  | cons s t ih =>
    by_cases h : s.isEmpty = true
    · have : s = [] := List.isEmpty_iff.mp h
      simp [List.filter_cons, h, this, ih]
    · simp [List.filter_cons, h, ih]

/-- `filter` distributes over `join`. -/
theorem filter_join_eq (p : Char → Bool) (L : List (List Char)) :
    (L.flatten).filter p = (L.map (List.filter p)).flatten := by
  induction L with
  | nil => rfl
  | cons s t ih => simp [List.filter_append, ih]

/-- The poll loop only ever consumes batches from the deadline-bounded
prefix of the arrival script. -/
theorem stopLoop_take :
    ∀ (fuel : ℕ) (bs : List (List RTEvent)) (c : RTCore),
      (stopLoop fuel bs c).1 = (stopLoop fuel (bs.take (fuel + 1)) c).1 ∧
      (stopLoop fuel bs c).2.headD [] = (stopLoop fuel (bs.take (fuel + 1)) c).2.headD [] := by
  intro fuel
  induction fuel with
  | zero =>
    intro bs c
    cases bs with
    | nil => exact ⟨rfl, rfl⟩
    | cons b t => exact ⟨rfl, rfl⟩
  | succ n ih =>
    intro bs c
    cases bs with
    | nil => exact ⟨rfl, rfl⟩
    | cons b t =>
      simp only [stopLoop, List.take_succ_cons, List.headD_cons, List.tail_cons]
      by_cases h : (drain_events c b).final_transcript ≠ ""
      · rw [if_pos h, if_pos h]
        refine ⟨rfl, ?_⟩
        cases t with
        | nil => rfl
        | cons b2 t2 => rfl
      · rw [if_neg h, if_neg h]
        exact ih t (drain_events c b)

theorem runMsgs_append (env : Env) (l1 l2 : List CMsg) :
    ∀ st : ConnState,
      runMsgs env st (l1 ++ l2)
        = ((runMsgs env (runMsgs env st l1).1 l2).1,
           (runMsgs env st l1).2 ++ (runMsgs env (runMsgs env st l1).1 l2).2) := by
  induction l1 with
  | nil => intro st; simp [runMsgs]
  | cons m ms ih => intro st; simp [runMsgs, ih, List.append_assoc]

theorem vadEventActs_mem (evs : List RTEvent) : ∀ a ∈ vadEventActs evs, isVadAct a := by
  intro a ha
  obtain ⟨e, _, hfe⟩ := List.mem_filterMap.mp ha
  cases e with
  | speech_started => exact ⟨true, some "speech_started", (Option.some.inj hfe).symm⟩
  | speech_stopped => exact ⟨false, some "speech_stopped", (Option.some.inj hfe).symm⟩
  | partialText t => exact absurd hfe (by simp)
  | finalText t => exact absurd hfe (by simp)
  | closed => exact absurd hfe (by simp)

/-- One `audio` message while listening: the buffer grows by the chunk, the
flag stays set, the session (when present) advances one step. -/
theorem handleAudio_state (env : Env) (st : ConnState) (samples : List ℚ)
    (h : st.is_listening = true) :
    (handleAudio env st samples).1
      = { audio_buffer := st.audio_buffer ++ [samples], is_listening := st.is_listening,
          asr_session := st.asr_session.map stepSession } := by
  unfold handleAudio
  rw [if_pos h]
  cases hs : st.asr_session with
  | some sess => simp [hs]
  | none =>
    by_cases hv : (env.vadLoaded = true ∧ samples ≠ [])
    · simp [hs, hv]
    · simp [hs, hv]

/-- One `audio` message while listening emits only `vad_status`. -/
theorem handleAudio_acts (env : Env) (st : ConnState) (samples : List ℚ)
    (h : st.is_listening = true) :
    ∀ a ∈ (handleAudio env st samples).2, isVadAct a := by
  unfold handleAudio
  rw [if_pos h]
  cases hs : st.asr_session with
  | some sess =>
    simp only [hs]
    cases hpc : sess.script.perChunk.getD sess.idx (some []) with
    | none => simp
    | some evs => simpa using vadEventActs_mem evs
  | none =>
    by_cases hv : (env.vadLoaded = true ∧ samples ≠ [])
    · intro a ha
      simp [hs, hv] at ha
      exact ⟨_, _, ha⟩
    · simp [hs, hv]

/-- Audio messages while listening: state accumulation. -/
theorem audioRun_state (env : Env) :
    ∀ (chunks : List (List ℚ)) (st : ConnState), st.is_listening = true →
      (runMsgs env st (chunks.map CMsg.audio)).1
        = { audio_buffer := st.audio_buffer ++ chunks, is_listening := true,
            asr_session := st.asr_session.map (stepSession^[chunks.length]) } := by
  intro chunks
  induction chunks with
  | nil =>
    intro st h
    cases st with
    | mk b l s => simp_all [runMsgs, Function.iterate_zero]
  | cons c cs ih =>
    intro st h
    have hstep := handleAudio_state env st c h
    simp only [List.map_cons, runMsgs, processMsg]
    rw [hstep]
    rw [ih _ (by simp [h])]
    simp [Option.map_map, Function.comp, Function.iterate_succ_apply, List.append_assoc]

/-- Audio messages while listening emit only `vad_status` notifications. -/
theorem audioRun_acts (env : Env) :
    ∀ (chunks : List (List ℚ)) (st : ConnState), st.is_listening = true →
      ∀ a ∈ (runMsgs env st (chunks.map CMsg.audio)).2, isVadAct a := by
  intro chunks
  induction chunks with
  | nil => intro st _ a ha; simp [runMsgs] at ha
  | cons c cs ih =>
    intro st h a ha
    simp only [List.map_cons, runMsgs, processMsg, List.mem_append] at ha
    rcases ha with ha | ha
    · exact handleAudio_acts env st c h a ha
    · have h1 : (handleAudio env st c).1.is_listening = true := by
        rw [handleAudio_state env st c h]; exact h
      exact ih _ h1 a ha

theorem synthSentence_mid (env : Env) (s : List Char) :
    ∀ a ∈ synthSentence env s, isMidAct a := by
  unfold synthSentence
  by_cases h : env.clean s.asString ≠ ""
  · rw [if_pos h]
    intro a ha
    rcases List.mem_cons.mp ha with h1 | h1
    · exact Or.inr (Or.inl ⟨_, h1⟩)
    · obtain ⟨ch, _, hc⟩ := List.mem_map.mp h1
      exact Or.inr (Or.inr (Or.inr ⟨_, _, hc.symm⟩))
  · rw [if_neg h]
    intro a ha
    simp at ha

theorem respFold_mid (env : Env) :
    ∀ (fs : List String) (acc : String × List Char × List Act),
      (∀ a ∈ acc.2.2, isMidAct a) →
      ∀ a ∈ (fs.foldl (respStep env) acc).2.2, isMidAct a := by
  intro fs
  induction fs with
  | nil => intro acc hacc a ha; exact hacc a ha
  | cons f fs ih =>
    intro acc hacc a ha
    refine ih _ ?_ a ha
    intro b hb
    unfold respStep at hb
    simp only [List.mem_append, List.mem_cons] at hb
    rcases hb with hb | hb | hb
    · exact hacc b hb
    · exact Or.inr (Or.inr (Or.inl ⟨_, hb⟩))
    · obtain ⟨l, hl, hbl⟩ := List.mem_flatten.mp hb
      obtain ⟨s, _, hs⟩ := List.mem_map.mp hl
      exact synthSentence_mid env s b (hs ▸ hbl)

/-- The responding phase is some `response_chunk` / synthesis actions closed
by a single `response_complete`. -/
theorem respondActs_shape (env : Env) (t : String) :
    ∃ (mid : List Act) (r : String),
      respondActs env t = mid ++ [Act.emit (SEvent.response_complete r)] ∧
        ∀ a ∈ mid, isMidAct a := by
  unfold respondActs
  refine ⟨Act.callChat t :: ((env.chatChunks t).foldl (respStep env) ("", [], [])).2.2
      ++ (if (trimChars ((env.chatChunks t).foldl (respStep env) ("", [], [])).2.1).isEmpty
          then []
          else synthSentence env (trimChars ((env.chatChunks t).foldl (respStep env) ("", [], [])).2.1)),
    ((env.chatChunks t).foldl (respStep env) ("", [], [])).1, ?_, ?_⟩
  · simp [List.append_assoc]
  · intro a ha
    rcases List.mem_cons.mp ha with h1 | h1
    · exact Or.inl ⟨_, h1⟩
    rcases List.mem_append.mp h1 with h2 | h2
    · exact respFold_mid env _ _ (by intro b hb; simp at hb) a h2
    · by_cases h3 : (trimChars ((env.chatChunks t).foldl (respStep env) ("", [], [])).2.1).isEmpty
      · rw [if_pos h3] at h2; simp at h2
      · rw [if_neg h3] at h2
        exact synthSentence_mid env _ a h2

/-- Unfolding of the `stop_listening` handler's action list. -/
theorem handleStop_acts (env : Env) (st : ConnState) :
    (handleStop env st).2
      = Act.emit SEvent.listening_stopped
        :: (if (stopResolution env st).2 then [Act.callBatch st.audio_buffer.flatten] else [])
        ++ Act.emit (SEvent.transcript (stopResolution env st).1)
        :: (if pyStrip (stopResolution env st).1 ≠ "" then respondActs env (stopResolution env st).1
            else [Act.emit (SEvent.response_complete "")]) := rfl

/-- Master shape of a full turn's trace: acknowledgment, `vad_status`
notifications, `listening_stopped`, the possible batch-transcription call,
exactly one `transcript`, the responding actions, exactly one
`response_complete`. -/
theorem turn_shape (env : Env) (st0 : ConnState) (chunks : List (List ℚ)) :
    ∃ (vadA midA : List Act) (r : String),
      turnTrace env st0 chunks
        = Act.emit SEvent.listening_started :: vadA
          ++ Act.emit SEvent.listening_stopped
          :: (if turnShouldBatch env st0 chunks
              then [Act.callBatch (turnStopState env st0 chunks).audio_buffer.flatten]
              else [])
          ++ Act.emit (SEvent.transcript (turnTranscript env st0 chunks))
          :: midA ++ [Act.emit (SEvent.response_complete r)]
      ∧ (∀ a ∈ vadA, isVadAct a) ∧ (∀ a ∈ midA, isMidAct a) := by
  have hstart : (handleStart env st0).1.is_listening = true := rfl
  have hdecomp :
      turnTrace env st0 chunks
        = Act.emit SEvent.listening_started
          :: ((runMsgs env (handleStart env st0).1 (chunks.map CMsg.audio)).2
              ++ (handleStop env (turnStopState env st0 chunks)).2) := by
    unfold turnTrace turnMsgs turnStopState
    simp only [runMsgs, processMsg, List.append_eq]
    rw [runMsgs_append env (chunks.map CMsg.audio) [CMsg.stop_listening]]
    simp [runMsgs, processMsg, handleStart]
  have htr : (stopResolution env (turnStopState env st0 chunks)).1
      = turnTranscript env st0 chunks := rfl
  have hsb : (stopResolution env (turnStopState env st0 chunks)).2
      = turnShouldBatch env st0 chunks := rfl
  by_cases hresp : pyStrip (turnTranscript env st0 chunks) ≠ ""
  · obtain ⟨mid, r, hmid, hmidP⟩ := respondActs_shape env (turnTranscript env st0 chunks)
    refine ⟨(runMsgs env (handleStart env st0).1 (chunks.map CMsg.audio)).2, mid, r, ?_, ?_, hmidP⟩
    · rw [hdecomp, handleStop_acts, htr, hsb, if_pos hresp, hmid]
      simp [List.append_assoc]
    · exact audioRun_acts env chunks _ hstart
  · refine ⟨(runMsgs env (handleStart env st0).1 (chunks.map CMsg.audio)).2, [], "", ?_, ?_, by simp⟩
    · rw [hdecomp, handleStop_acts, htr, hsb, if_neg hresp]
      simp [List.append_assoc]
    · exact audioRun_acts env chunks _ hstart

/-! ## Resampler properties -/

theorem truncQ_clipQ_bounds (q : ℚ) :
    -32768 ≤ truncQ (clipQ q) ∧ truncQ (clipQ q) ≤ 32767 := by
  have hlo : (-32768 : ℚ) ≤ clipQ q := le_max_left _ _
  have hhi : clipQ q ≤ 32767 := max_le (by norm_num) (min_le_left _ _)
  unfold truncQ
  by_cases h : (0 : ℚ) ≤ clipQ q
  · rw [if_pos h]
    constructor
    · exact Int.le_floor.mpr (by exact_mod_cast hlo)
    · have h2 : (⌊clipQ q⌋ : ℚ) ≤ 32767 := le_trans (Int.floor_le _) hhi
      exact_mod_cast h2
  · rw [if_neg h]
    constructor
    · have h2 : (-32768 : ℚ) ≤ (⌈clipQ q⌉ : ℚ) := le_trans hlo (Int.le_ceil _)
      exact_mod_cast h2
    · exact Int.ceil_le.mpr (by exact_mod_cast hhi)

/-- **C8.** For PCM16 input with `src_rate ≠ dst_rate` and a non-empty
sample sequence, the resampler's output has `max 1 (round(len · r2/r1))`
samples — `round(len · r2/r1)` within rounding — each one the linear
interpolation of the source samples at its grid position, clipped to the
16-bit signed range; with equal rates or an empty buffer the input is
returned unchanged. -/
theorem C8_resample_spec (samples : List ℤ) (r1 r2 : ℕ) :
    ((r1 = r2 ∨ samples = []) → resample_pcm16 samples r1 r2 = samples)
    ∧ (r1 ≠ r2 → samples ≠ [] →
        (resample_pcm16 samples r1 r2).length
            = max 1 (roundHalfEven ((samples.length : ℚ) * (r2 : ℚ) / (r1 : ℚ))).toNat
        ∧ resample_pcm16 samples r1 r2
            = (List.range (max 1 (roundHalfEven ((samples.length : ℚ) * (r2 : ℚ) / (r1 : ℚ))).toNat)).map
                (fun i => truncQ (clipQ (interpAt samples
                  (dstPos samples.length
                    (max 1 (roundHalfEven ((samples.length : ℚ) * (r2 : ℚ) / (r1 : ℚ))).toNat) i))))
        ∧ ∀ z ∈ resample_pcm16 samples r1 r2, -32768 ≤ z ∧ z ≤ 32767) := by
  constructor
  · intro h; unfold resample_pcm16; rw [if_pos h]
  · intro h1 h2
    have hcond : ¬(r1 = r2 ∨ samples = []) := by tauto
    refine ⟨?_, ?_, ?_⟩
    · unfold resample_pcm16; rw [if_neg hcond]; simp
    · unfold resample_pcm16; rw [if_neg hcond]
    · intro z hz
      unfold resample_pcm16 at hz
      rw [if_neg hcond] at hz
      obtain ⟨i, _, hiz⟩ := List.mem_map.mp hz
      rw [← hiz]
      exact truncQ_clipQ_bounds _

/-- Witness for C8 at concrete inputs: the identity case, and the halving
case where `round(4 · 8000/16000) = 2` output samples are produced. -/
theorem C8_resample_spec_witness :
    resample_pcm16 [100, -200] 7 7 = [100, -200]
    ∧ (resample_pcm16 [0, 100, 200, 300] 16000 8000).length = 2 := by
  constructor
  · exact (C8_resample_spec [100, -200] 7 7).1 (Or.inl rfl)
  · have h := ((C8_resample_spec [0, 100, 200, 300] 16000 8000).2
      (by decide) (by decide)).1
    rw [h]
    norm_num [roundHalfEven]
    decide

/-- **C5.** The segmentation loop cuts the streamed text into consecutive
sentences in text order: the buffer decomposes into the (pre-strip) sentence
parts followed by the remainder, the emitted sentences are exactly the
stripped non-empty parts (so no character belongs to two sentences), no
non-whitespace character is lost, and on the fragment stream
`["Hi", " there.", " How are you", "?"]` the loop yields `"Hi there."`
during streaming and `"How are you?"` as the end-of-stream flush. -/
theorem C5_sentence_stream :
    (∀ buf : List Char, ∃ parts : List (List Char),
        parts.flatten ++ (extractSentences buf).2 = buf ∧
        (extractSentences buf).1 = (parts.map trimChars).filter (fun s => !s.isEmpty)) ∧
    (∀ buf : List Char,
        ((extractSentences buf).1.flatten ++ (extractSentences buf).2).filter
            (fun c => !c.isWhitespace)
          = buf.filter (fun c => !c.isWhitespace)) ∧
    feedFragments [] (["Hi", " there.", " How are you", "?"].map String.toList)
        = (["Hi there.".toList], "How are you?".toList) ∧
    streamSentences ["Hi", " there.", " How are you", "?"]
        = ["Hi there.".toList, "How are you?".toList] := by
  have hmain : ∀ buf : List Char, ∃ parts : List (List Char),
      parts.flatten ++ (extractSentences buf).2 = buf ∧
      (extractSentences buf).1 = (parts.map trimChars).filter (fun s => !s.isEmpty) :=
    fun buf => extractGo_decomp buf.length buf
  refine ⟨hmain, ?_, by decide, by decide⟩
  intro buf
  obtain ⟨parts, hj, hs⟩ := hmain buf
  rw [List.filter_append, hs, join_filter_nonEmpty, filter_join_eq, List.map_map]
  have hcomp : (List.filter (fun c => !c.isWhitespace)) ∘ trimChars
      = fun p => List.filter (fun c => !c.isWhitespace) p := funext filter_nonws_trimChars
  rw [hcomp, ← filter_join_eq, ← List.filter_append, hj]

/-- Let-free unfolding of `stop_and_get_transcript`. -/
theorem stop_and_get_explicit (fuel : ℕ) (bs : List (List RTEvent)) (c : RTCore) :
    stop_and_get_transcript fuel bs c
      = ((fun c2 => (if c2.final_transcript ≠ "" then c2.final_transcript
            else if c2.partial_transcript ≠ "" then c2.partial_transcript else "", c2))
          (drain_events (stopLoop fuel bs c).1 ((stopLoop fuel bs c).2.headD []))) := rfl

/-- **C4.** `stop_and_get_transcript` returns the session's final transcript
when non-empty, else the last partial transcript when non-empty, else the
empty string — the transcripts being those of the session state at return
time — and it never consumes events beyond the deadline: only the first
`fuel + 1` poll-tick batches (the poll iterations the timeout allows, plus
the single post-loop drain) can influence the result. -/
theorem C4_stop_and_get_transcript (fuel : ℕ) (bs : List (List RTEvent)) (c : RTCore) :
    ((stop_and_get_transcript fuel bs c).1
        = (if (stop_and_get_transcript fuel bs c).2.final_transcript ≠ ""
           then (stop_and_get_transcript fuel bs c).2.final_transcript
           else if (stop_and_get_transcript fuel bs c).2.partial_transcript ≠ ""
           then (stop_and_get_transcript fuel bs c).2.partial_transcript
           else ""))
    ∧ stop_and_get_transcript fuel bs c = stop_and_get_transcript fuel (bs.take (fuel + 1)) c := by
  constructor
  · rfl
  · obtain ⟨h1, h2⟩ := stopLoop_take fuel bs c
    rw [stop_and_get_explicit fuel bs c, stop_and_get_explicit fuel (bs.take (fuel + 1)) c,
      h1, h2]

/-- **C10.** An `audio` message received while the connection is not
listening leaves the whole connection state unchanged and emits nothing
(no event, no collaborator call, nothing forwarded to any session). -/
theorem C10_audio_ignored_when_not_listening (env : Env) (st : ConnState)
    (samples : List ℚ) (h : st.is_listening = false) :
    processMsg env st (CMsg.audio samples) = (st, []) := by
  show handleAudio env st samples = (st, [])
  unfold handleAudio
  rw [if_neg (by simp [h])]

/-- Witness for C10: a fresh connection ignores a stray `audio` message. -/
theorem C10_audio_ignored_witness :
    initConn.is_listening = false
    ∧ processMsg sampleEnv initConn (CMsg.audio [1]) = (initConn, []) :=
  ⟨rfl, C10_audio_ignored_when_not_listening sampleEnv initConn [1] rfl⟩

theorem notTC_of_isVadAct {a : Act} (h : isVadAct a) :
    (∀ s, a ≠ Act.emit (SEvent.transcript s))
      ∧ (∀ s, a ≠ Act.emit (SEvent.response_complete s)) := by
  obtain ⟨b, e, rfl⟩ := h
  exact ⟨fun s => by simp, fun s => by simp⟩

theorem notTC_of_isMidAct {a : Act} (h : isMidAct a) :
    (∀ s, a ≠ Act.emit (SEvent.transcript s))
      ∧ (∀ s, a ≠ Act.emit (SEvent.response_complete s)) := by
  rcases h with ⟨s, rfl⟩ | ⟨s, rfl⟩ | ⟨s, rfl⟩ | ⟨d, rr, rfl⟩ <;>
    exact ⟨fun s' => by simp, fun s' => by simp⟩

/-- **C1.** Every turn's trace contains exactly one `transcript` event and
exactly one `response_complete` event, the `transcript` strictly first:
the trace splits around the two events and no other position carries
either event type — whatever the collaborator outcomes (empty transcripts,
empty responses) are. -/
theorem C1_one_transcript_one_complete (env : Env) (st0 : ConnState)
    (chunks : List (List ℚ)) (_h : chunks ≠ []) :
    ∃ (l1 l2 l3 : List Act) (t r : String),
      turnTrace env st0 chunks
        = l1 ++ Act.emit (SEvent.transcript t)
            :: l2 ++ Act.emit (SEvent.response_complete r) :: l3
      ∧ ∀ a ∈ l1 ++ l2 ++ l3,
          (∀ s, a ≠ Act.emit (SEvent.transcript s))
            ∧ (∀ s, a ≠ Act.emit (SEvent.response_complete s)) := by
  obtain ⟨vadA, midA, r, htrace, hvad, hmid⟩ := turn_shape env st0 chunks
  refine ⟨Act.emit SEvent.listening_started
      :: vadA ++ Act.emit SEvent.listening_stopped
      :: (if turnShouldBatch env st0 chunks
          then [Act.callBatch (turnStopState env st0 chunks).audio_buffer.flatten]
          else []),
    midA, [], turnTranscript env st0 chunks, r, ?_, ?_⟩
  · rw [htrace]
  · intro a ha
    rcases List.mem_append.mp ha with h1 | h1
    · rcases List.mem_append.mp h1 with h2 | h2
      · rcases List.mem_cons.mp h2 with rfl | h3
        · exact ⟨fun s => by simp, fun s => by simp⟩
        rcases List.mem_append.mp h3 with h4 | h4
        · exact notTC_of_isVadAct (hvad _ h4)
        rcases List.mem_cons.mp h4 with rfl | h5
        · exact ⟨fun s => by simp, fun s => by simp⟩
        by_cases hb : turnShouldBatch env st0 chunks = true
        · rw [if_pos hb] at h5
          have h6 := List.mem_singleton.mp h5
          subst h6
          exact ⟨fun s => by simp, fun s => by simp⟩
        · rw [if_neg hb] at h5
          simp at h5
      · exact notTC_of_isMidAct (hmid _ h2)
    · simp at h1

/-- Witness for C1 on a concrete single-chunk turn. -/
theorem C1_one_transcript_one_complete_witness :
    ([[(1 : ℚ)]] : List (List ℚ)) ≠ []
    ∧ ∃ (l1 l2 l3 : List Act) (t r : String),
        turnTrace sampleEnv initConn [[(1 : ℚ)]]
          = l1 ++ Act.emit (SEvent.transcript t)
              :: l2 ++ Act.emit (SEvent.response_complete r) :: l3
        ∧ ∀ a ∈ l1 ++ l2 ++ l3,
            (∀ s, a ≠ Act.emit (SEvent.transcript s))
              ∧ (∀ s, a ≠ Act.emit (SEvent.response_complete s)) :=
  ⟨by simp, C1_one_transcript_one_complete sampleEnv initConn [[(1 : ℚ)]] (by simp)⟩

theorem emit_mem_of_mem_emits {l : List Act} {e : SEvent} (h : e ∈ emits l) :
    Act.emit e ∈ l := by
  obtain ⟨a, ha, hae⟩ := List.mem_filterMap.mp h
  cases a with
  | emit e2 =>
    have : e2 = e := Option.some.inj hae
    subst this
    exact ha
  | callBatch x => simp at hae
  | callChat x => simp at hae
  | callTTS x => simp at hae

/-- **C7.** Within one turn, the emitted event sequence is exactly:
`listening_started`, then only `vad_status` events, then
`listening_stopped`, then the single `transcript`, then only
`response_chunk`/`audio_chunk` events, then the single `response_complete`. -/
theorem C7_event_order (env : Env) (st0 : ConnState) (chunks : List (List ℚ)) :
    ∃ (vadE midE : List SEvent) (t r : String),
      emits (turnTrace env st0 chunks)
        = SEvent.listening_started :: vadE
          ++ SEvent.listening_stopped :: SEvent.transcript t
          :: midE ++ [SEvent.response_complete r]
      ∧ (∀ e ∈ vadE, ∃ b ev, e = SEvent.vad_status b ev)
      ∧ (∀ e ∈ midE, (∃ s, e = SEvent.response_chunk s)
          ∨ ∃ d rr, e = SEvent.audio_chunk d rr) := by
  obtain ⟨vadA, midA, r, htrace, hvad, hmid⟩ := turn_shape env st0 chunks
  have hbatch : emits (if turnShouldBatch env st0 chunks
      then [Act.callBatch (turnStopState env st0 chunks).audio_buffer.flatten]
      else []) = [] := by
    by_cases hb : turnShouldBatch env st0 chunks = true <;> simp [hb, emits]
  refine ⟨emits vadA, emits midA, turnTranscript env st0 chunks, r, ?_, ?_, ?_⟩
  · rw [htrace]
    simp only [emits, List.filterMap_append, List.filterMap_cons]
    rw [show (List.filterMap (fun a => match a with | Act.emit e => some e | _ => none)
        (if turnShouldBatch env st0 chunks
         then [Act.callBatch (turnStopState env st0 chunks).audio_buffer.flatten]
         else [])) = [] from hbatch]
    simp
  · intro e he
    obtain ⟨b, ev, heq⟩ := hvad _ (emit_mem_of_mem_emits he)
    exact ⟨b, ev, Act.emit.inj heq⟩
  · intro e he
    rcases hmid _ (emit_mem_of_mem_emits he) with ⟨s, heq⟩ | ⟨s, heq⟩ | ⟨s, heq⟩ | ⟨d, rr, heq⟩
    · simp at heq
    · simp at heq
    · exact Or.inl ⟨s, Act.emit.inj heq⟩
    · exact Or.inr ⟨d, rr, Act.emit.inj heq⟩

/-! ## Session state lemmas for the batch-fallback guard -/

/-- Let-free unfolding of `stopResolution` when a realtime session exists. -/
theorem stopResolution_some (env : Env) (buf : List (List ℚ)) (sess : RTSession) :
    stopResolution env { audio_buffer := buf, is_listening := true, asr_session := some sess }
      = (if ((!buf.isEmpty && (pyStrip (rtStop sess).1 == "")) &&
              ((rtStop sess).2.saw_speech_started
                || decide ((if buf.flatten ≠ [] then meanAbs buf.flatten else 0) > 8/1000)))
          then env.batchTranscribe buf.flatten else (rtStop sess).1,
          (!buf.isEmpty && (pyStrip (rtStop sess).1 == "")) &&
            ((rtStop sess).2.saw_speech_started
              || decide ((if buf.flatten ≠ [] then meanAbs buf.flatten else 0) > 8/1000))) := rfl

/-- Let-free unfolding of `stopResolution` without a realtime session. -/
theorem stopResolution_none (env : Env) (buf : List (List ℚ)) (fl : Bool) :
    stopResolution env { audio_buffer := buf, is_listening := fl, asr_session := none }
      = (if (!buf.isEmpty && (pyStrip "" == "")) && true
         then env.batchTranscribe buf.flatten else "",
         (!buf.isEmpty && (pyStrip "" == "")) && true) := rfl

theorem apply_event_saw (c : RTCore) (e : RTEvent) (h : e ≠ RTEvent.speech_started) :
    (apply_event c e).saw_speech_started = c.saw_speech_started := by
  cases e with
  | speech_started => exact absurd rfl h
  | speech_stopped => rfl
  | partialText t => rfl
  | finalText t => rfl
  | closed => rfl

theorem drain_events_saw :
    ∀ (b : List RTEvent) (c : RTCore), RTEvent.speech_started ∉ b →
      c.saw_speech_started = false → (drain_events c b).saw_speech_started = false := by
  intro b
  induction b with
  | nil => intro c _ hc; exact hc
  | cons e t ih =>
    intro c hb hc
    have he : e ≠ RTEvent.speech_started := fun h => hb (h ▸ List.mem_cons_self e t)
    have ht : RTEvent.speech_started ∉ t := fun h => hb (List.mem_cons_of_mem _ h)
    exact ih (apply_event c e) ht (by rw [apply_event_saw c e he]; exact hc)

theorem foldl_drain_saw :
    ∀ (ds : List (List RTEvent)) (c : RTCore), noSpeechStartBatches ds →
      c.saw_speech_started = false →
      (ds.foldl drain_events c).saw_speech_started = false := by
  intro ds
  induction ds with
  | nil => intro c _ hc; exact hc
  | cons b t ih =>
    intro c hds hc
    exact ih (drain_events c b)
      (fun x hx => hds x (List.mem_cons_of_mem _ hx))
      (drain_events_saw b c (hds b (List.mem_cons_self _ _)) hc)

theorem stopLoop_saw :
    ∀ (fuel : ℕ) (bs : List (List RTEvent)) (c : RTCore), noSpeechStartBatches bs →
      c.saw_speech_started = false →
      (stopLoop fuel bs c).1.saw_speech_started = false
        ∧ noSpeechStartBatches (stopLoop fuel bs c).2 := by
  intro fuel
  induction fuel with
  | zero => intro bs c hbs hc; exact ⟨hc, hbs⟩
  | succ n ih =>
    intro bs c hbs hc
    have hhead : RTEvent.speech_started ∉ bs.headD [] := by
      cases bs with
      | nil => simp
      | cons b t => exact hbs b (List.mem_cons_self _ _)
    have htail : noSpeechStartBatches bs.tail := by
      cases bs with
      | nil => exact hbs
      | cons b t => exact fun x hx => hbs x (List.mem_cons_of_mem _ hx)
    have hc1 : (drain_events c (bs.headD [])).saw_speech_started = false :=
      drain_events_saw _ c hhead hc
    simp only [stopLoop]
    by_cases h : (drain_events c (bs.headD [])).final_transcript ≠ ""
    · rw [if_pos h]
      exact ⟨hc1, htail⟩
    · rw [if_neg h]
      exact ih bs.tail _ htail hc1

theorem stop_and_get_saw (fuel : ℕ) (bs : List (List RTEvent)) (c : RTCore)
    (hbs : noSpeechStartBatches bs) (hc : c.saw_speech_started = false) :
    (stop_and_get_transcript fuel bs c).2.saw_speech_started = false := by
  obtain ⟨h1, h2⟩ := stopLoop_saw fuel bs c hbs hc
  rw [stop_and_get_explicit]
  have hh : RTEvent.speech_started ∉ (stopLoop fuel bs c).2.headD [] := by
    cases hr : (stopLoop fuel bs c).2 with
    | nil => simp
    | cons b t =>
      have := h2
      rw [hr] at this
      exact this b (List.mem_cons_self _ _)
  exact drain_events_saw _ _ hh h1

theorem rtStop_saw (sess : RTSession) (h : scriptNoSpeechStart sess.script)
    (hc : sess.core.saw_speech_started = false) :
    (rtStop sess).2.saw_speech_started = false := by
  unfold rtStop
  cases hs : sess.script.stop with
  | raises ds =>
    have hds := h.2
    rw [hs] at hds
    exact foldl_drain_saw ds sess.core hds hc
  | ok fuel batches =>
    have hb := h.2
    rw [hs] at hb
    exact stop_and_get_saw fuel batches sess.core hb hc

theorem stepSession_script (s : RTSession) : (stepSession s).script = s.script := by
  unfold stepSession
  cases h : s.script.perChunk.getD s.idx (some []) <;> rfl

theorem iterate_stepSession_script (n : ℕ) :
    ∀ s : RTSession, ((stepSession^[n]) s).script = s.script := by
  induction n with
  | zero => intro s; rfl
  | succ m ih =>
    intro s
    rw [Function.iterate_succ_apply]
    exact (ih (stepSession s)).trans (stepSession_script s)

theorem stepSession_saw (s : RTSession)
    (h : ∀ ob ∈ s.script.perChunk, ∀ evs, ob = some evs → RTEvent.speech_started ∉ evs)
    (hc : s.core.saw_speech_started = false) :
    (stepSession s).core.saw_speech_started = false := by
  unfold stepSession
  cases hg : s.script.perChunk.getD s.idx (some []) with
  | none => exact hc
  | some evs =>
    have hin : RTEvent.speech_started ∉ evs := by
      rw [List.getD_eq_getElem?_getD] at hg
      cases hg2 : s.script.perChunk[s.idx]? with
      | none =>
        rw [hg2] at hg
        simp only [Option.getD_none, Option.some.injEq] at hg
        rw [← hg]
        simp
      | some ob =>
        rw [hg2] at hg
        simp only [Option.getD_some] at hg
        exact h ob (List.getElem?_mem hg2) evs hg
    exact drain_events_saw evs s.core hin hc

theorem iterate_stepSession_saw (n : ℕ) :
    ∀ s : RTSession,
      (∀ ob ∈ s.script.perChunk, ∀ evs, ob = some evs → RTEvent.speech_started ∉ evs) →
      s.core.saw_speech_started = false →
      ((stepSession^[n]) s).core.saw_speech_started = false := by
  induction n with
  | zero => intro s _ hc; exact hc
  | succ m ih =>
    intro s h hc
    rw [Function.iterate_succ_apply]
    refine ih (stepSession s) ?_ (stepSession_saw s h hc)
    rw [stepSession_script s]
    exact h

/-- The state on which `stop_listening` runs, in closed form. -/
theorem turnStopState_eq (env : Env) (st0 : ConnState) (chunks : List (List ℚ)) :
    turnStopState env st0 chunks
      = { audio_buffer := chunks, is_listening := true,
          asr_session :=
            (if env.hasCreateSession then
                env.sessionScript.map (fun scr => { script := scr, core := {}, idx := 0 })
              else none).map (stepSession^[chunks.length]) } := by
  unfold turnStopState
  rw [audioRun_state env chunks _ rfl]
  rfl

/-- **C2.** In a turn whose realtime session exists, delivered no
speech-start event, whose buffered audio has mean absolute amplitude at most
0.008, and whose realtime transcript resolves to empty, batch transcription
is never invoked and the emitted `transcript` event carries empty text. -/
theorem C2_silence_skips_batch (env : Env) (st0 : ConnState) (chunks : List (List ℚ))
    (scr : RTScript)
    (hhas : env.hasCreateSession = true)
    (hscr : env.sessionScript = some scr)
    (hnospeech : scriptNoSpeechStart scr)
    (henergy : meanAbs chunks.flatten ≤ 8/1000)
    (hempty : (rtStop ((stepSession^[chunks.length])
        { script := scr, core := {}, idx := 0 })).1 = "") :
    (∀ a ∈ turnTrace env st0 chunks, ∀ x, a ≠ Act.callBatch x)
    ∧ (∀ t, Act.emit (SEvent.transcript t) ∈ turnTrace env st0 chunks → t = "") := by
  set endSess := (stepSession^[chunks.length])
      ({ script := scr, core := {}, idx := 0 } : RTSession) with hend
  have hstate : turnStopState env st0 chunks
      = { audio_buffer := chunks, is_listening := true, asr_session := some endSess } := by
    rw [turnStopState_eq]
    simp [hhas, hscr, hend]
  have hsaw : (rtStop endSess).2.saw_speech_started = false := by
    have hscrip : endSess.script = scr :=
      iterate_stepSession_script chunks.length _
    have hsawend : endSess.core.saw_speech_started = false :=
      iterate_stepSession_saw chunks.length _ hnospeech.1 rfl
    refine rtStop_saw endSess ?_ hsawend
    rw [hscrip]
    exact hnospeech
  have hdec : decide ((if chunks.flatten ≠ [] then meanAbs chunks.flatten else 0)
      > (8/1000 : ℚ)) = false := by
    apply decide_eq_false
    by_cases hfl : chunks.flatten ≠ []
    · rw [if_pos hfl]; exact not_lt.mpr henergy
    · rw [if_neg hfl]; norm_num
  have hcond : ((!chunks.isEmpty && (pyStrip (rtStop endSess).1 == "")) &&
      ((rtStop endSess).2.saw_speech_started
        || decide ((if chunks.flatten ≠ [] then meanAbs chunks.flatten else 0) > 8/1000)))
      = false := by
    rw [hsaw, hdec]
    simp
  have hB : turnShouldBatch env st0 chunks = false := by
    unfold turnShouldBatch
    rw [hstate, stopResolution_some]
    exact hcond
  have hT : turnTranscript env st0 chunks = "" := by
    have h1 := congrArg Prod.fst (stopResolution_some env chunks endSess)
    rw [hcond] at h1
    simp only [if_false] at h1
    unfold turnTranscript
    rw [hstate, h1]
    exact hempty
  obtain ⟨vadA, midA, r, htrace, hvad, hmid⟩ := turn_shape env st0 chunks
  rw [hB, hT] at htrace
  constructor
  · intro a ha x
    rw [htrace] at ha
    rcases List.mem_cons.mp ha with rfl | h1
    · simp
    rcases List.mem_append.mp h1 with h2 | hc
    · rcases List.mem_append.mp h2 with h3 | h4
      · rcases List.mem_append.mp h3 with hv | h5
        · obtain ⟨b, e, rfl⟩ := hvad _ hv
          simp
        · rcases List.mem_cons.mp h5 with rfl | h6
          · simp
          · simp at h6
      · rcases List.mem_cons.mp h4 with rfl | h7
        · simp
        · rcases hmid _ h7 with ⟨s, rfl⟩ | ⟨s, rfl⟩ | ⟨s, rfl⟩ | ⟨d, rr, rfl⟩ <;> simp
    · rcases List.mem_singleton.mp hc with rfl
      simp
  · intro t ht
    rw [htrace] at ht
    rcases List.mem_cons.mp ht with h1 | h1
    · exact absurd h1 (by simp)
    rcases List.mem_append.mp h1 with h2 | hc
    · rcases List.mem_append.mp h2 with h3 | h4
      · rcases List.mem_append.mp h3 with hv | h5
        · obtain ⟨b, e, heq⟩ := hvad _ hv
          exact absurd heq (by simp)
        · rcases List.mem_cons.mp h5 with h6 | h6
          · exact absurd h6 (by simp)
          · simp at h6
      · rcases List.mem_cons.mp h4 with h7 | h7
        · exact SEvent.transcript.inj (Act.emit.inj h7)
        · rcases hmid _ h7 with ⟨s, heq⟩ | ⟨s, heq⟩ | ⟨s, heq⟩ | ⟨d, rr, heq⟩ <;>
            exact absurd heq (by simp)
    · exact absurd (List.mem_singleton.mp hc) (by simp)

/-- Witness for C2 on a concrete silent turn. -/
theorem C2_silence_skips_batch_witness :
    (∀ a ∈ turnTrace silentEnv initConn ([] : List (List ℚ)), ∀ x, a ≠ Act.callBatch x)
    ∧ (∀ t, Act.emit (SEvent.transcript t) ∈ turnTrace silentEnv initConn [] → t = "") :=
  C2_silence_skips_batch silentEnv initConn []
    { perChunk := [], stop := StopBehavior.ok 0 [] } rfl rfl
    (by constructor
        · intro ob h; exact absurd h (by simp)
        · intro b h; exact absurd h (by simp))
    (by norm_num [meanAbs])
    rfl

/-- **C3.** When the realtime session's stop-and-collect call returns a
transcript that is non-empty after stripping, batch transcription
(`stt.transcribe`) is never invoked for that turn. -/
theorem C3_nonempty_realtime_skips_batch (env : Env) (st0 : ConnState)
    (chunks : List (List ℚ)) (scr : RTScript) (fuel : ℕ) (batches : List (List RTEvent))
    (hhas : env.hasCreateSession = true)
    (hscr : env.sessionScript = some scr)
    (hstop : scr.stop = StopBehavior.ok fuel batches)
    (hne : pyStrip (stop_and_get_transcript fuel batches
        ((stepSession^[chunks.length]) { script := scr, core := {}, idx := 0 }).core).1 ≠ "") :
    ∀ a ∈ turnTrace env st0 chunks, ∀ x, a ≠ Act.callBatch x := by
  set endSess := (stepSession^[chunks.length])
      ({ script := scr, core := {}, idx := 0 } : RTSession) with hend
  have hstate : turnStopState env st0 chunks
      = { audio_buffer := chunks, is_listening := true, asr_session := some endSess } := by
    rw [turnStopState_eq]
    simp [hhas, hscr, hend]
  have hrt : rtStop endSess = stop_and_get_transcript fuel batches endSess.core := by
    have hscrip : endSess.script = scr := iterate_stepSession_script chunks.length _
    unfold rtStop
    rw [hscrip, hstop]
  have hbeq : (pyStrip (rtStop endSess).1 == "") = false := by
    rw [hrt]
    exact beq_eq_false_iff_ne.mpr hne
  have hB : turnShouldBatch env st0 chunks = false := by
    unfold turnShouldBatch
    rw [hstate, stopResolution_some, hbeq]
    simp
  obtain ⟨vadA, midA, r, htrace, hvad, hmid⟩ := turn_shape env st0 chunks
  rw [hB] at htrace
  intro a ha x
  rw [htrace] at ha
  rcases List.mem_cons.mp ha with rfl | h1
  · simp
  rcases List.mem_append.mp h1 with h2 | hc
  · rcases List.mem_append.mp h2 with h3 | h4
    · rcases List.mem_append.mp h3 with hv | h5
      · obtain ⟨b, e, rfl⟩ := hvad _ hv
        simp
      · rcases List.mem_cons.mp h5 with rfl | h6
        · simp
        · simp at h6
    · rcases List.mem_cons.mp h4 with rfl | h7
      · simp
      · rcases hmid _ h7 with ⟨s, rfl⟩ | ⟨s, rfl⟩ | ⟨s, rfl⟩ | ⟨d, rr, rfl⟩ <;> simp
  · rcases List.mem_singleton.mp hc with rfl
    simp

/-- Witness for C3 on a concrete turn whose realtime transcript is `"hi"`. -/
theorem C3_nonempty_realtime_skips_batch_witness :
    (∀ a ∈ turnTrace rtHitEnv initConn ([] : List (List ℚ)), ∀ x, a ≠ Act.callBatch x)
    ∧ Act.emit (SEvent.transcript "hi") ∈ turnTrace rtHitEnv initConn [] :=
  ⟨C3_nonempty_realtime_skips_batch rtHitEnv initConn []
    { perChunk := [], stop := StopBehavior.ok 1 [[RTEvent.finalText "hi"]] }
    1 [[RTEvent.finalText "hi"]] rfl rfl rfl (by decide), by decide⟩

/-- The turn trace decomposes into the start acknowledgment, the audio-phase
actions and the stop-phase actions. -/
theorem turnTrace_decomp (env : Env) (st0 : ConnState) (chunks : List (List ℚ)) :
    turnTrace env st0 chunks
      = Act.emit SEvent.listening_started
        :: ((runMsgs env (handleStart env st0).1 (chunks.map CMsg.audio)).2
            ++ (handleStop env (turnStopState env st0 chunks)).2) := by
  unfold turnTrace turnMsgs turnStopState
  simp only [runMsgs, processMsg, List.append_eq]
  rw [runMsgs_append env (chunks.map CMsg.audio) [CMsg.stop_listening]]
  simp [runMsgs, processMsg, handleStart]

/-- Without a realtime session and with the local VAD absent, the audio
phase emits nothing at all. -/
theorem audioRun_acts_silent (env : Env) :
    ∀ (chunks : List (List ℚ)) (st : ConnState), st.is_listening = true →
      st.asr_session = none → env.vadLoaded = false →
      (runMsgs env st (chunks.map CMsg.audio)).2 = [] := by
  intro chunks
  induction chunks with
  | nil => intro st _ _ _; rfl
  | cons c cs ih =>
    intro st h hs hv
    simp only [List.map_cons, runMsgs, processMsg]
    have hacts : (handleAudio env st c).2 = [] := by
      unfold handleAudio
      rw [if_pos h]
      simp only [hs]
      rw [if_neg (by simp [hv])]
    have hstate := handleAudio_state env st c h
    rw [hacts, List.nil_append]
    refine ih _ ?_ ?_ hv
    · rw [hstate]; exact h
    · rw [hstate]; simp [hs]

/-- **C9 (amended).** If creation or start of the realtime session raises on
`start_listening`, the turn proceeds without a session: `listening_started`
is still emitted and batch transcription over the buffered audio is invoked
on `stop_listening` (the buffer being non-empty); but no `vad_status` event
is emitted for any audio chunk, because every startup configuration that
installs a realtime session factory also disables the local VAD, and the
audio handler's local-VAD branch exists only for the whisper/batch
configurations. -/
theorem C9_amended_no_vad_after_session_failure (cfg : Config) (env : Env)
    (st0 : ConnState) (chunks : List (List ℚ))
    (_hc1 : env.hasCreateSession = cfgHasCreateSession cfg)
    (hc2 : env.vadLoaded = cfgVadLoaded cfg)
    (hrt : cfgHasCreateSession cfg = true)
    (hfail : env.sessionScript = none)
    (hchunks : chunks ≠ []) :
    Act.emit SEvent.listening_started ∈ turnTrace env st0 chunks
    ∧ Act.callBatch chunks.flatten ∈ turnTrace env st0 chunks
    ∧ ∀ b e, Act.emit (SEvent.vad_status b e) ∉ turnTrace env st0 chunks := by
  have hvadoff : env.vadLoaded = false := by
    rw [hc2]
    show (!cfgHasCreateSession cfg) = false
    rw [hrt]
    rfl
  have hsess : (handleStart env st0).1.asr_session = none := by
    unfold handleStart
    simp [hfail]
  have hstate : turnStopState env st0 chunks
      = { audio_buffer := chunks, is_listening := true, asr_session := none } := by
    rw [turnStopState_eq, hfail]
    simp
  have haudio : (runMsgs env (handleStart env st0).1 (chunks.map CMsg.audio)).2 = [] :=
    audioRun_acts_silent env chunks _ rfl hsess hvadoff
  have hEmpty : chunks.isEmpty = false := by
    cases chunks with
    | nil => exact absurd rfl hchunks
    | cons c cs => rfl
  have hcond : ((!chunks.isEmpty && (pyStrip "" == "")) && true) = true := by
    rw [hEmpty]
    decide
  have htrace : turnTrace env st0 chunks
      = Act.emit SEvent.listening_started
        :: (Act.emit SEvent.listening_stopped :: [Act.callBatch chunks.flatten]
            ++ Act.emit (SEvent.transcript (env.batchTranscribe chunks.flatten))
            :: (if pyStrip (env.batchTranscribe chunks.flatten) ≠ ""
                then respondActs env (env.batchTranscribe chunks.flatten)
                else [Act.emit (SEvent.response_complete "")])) := by
    rw [turnTrace_decomp, haudio, List.nil_append, hstate, handleStop_acts,
      stopResolution_none]
    simp only [hcond, if_true]
  refine ⟨?_, ?_, ?_⟩
  · rw [htrace]; exact List.mem_cons_self _ _
  · rw [htrace]
    simp
  · intro b e hmem
    rw [htrace] at hmem
    have hresp : ∀ a ∈ (if pyStrip (env.batchTranscribe chunks.flatten) ≠ ""
        then respondActs env (env.batchTranscribe chunks.flatten)
        else [Act.emit (SEvent.response_complete "")]),
        isMidAct a ∨ ∃ rr, a = Act.emit (SEvent.response_complete rr) := by
      by_cases hq : pyStrip (env.batchTranscribe chunks.flatten) ≠ ""
      · rw [if_pos hq]
        obtain ⟨mid, rr, hmid, hmidP⟩ :=
          respondActs_shape env (env.batchTranscribe chunks.flatten)
        rw [hmid]
        intro a ha
        rcases List.mem_append.mp ha with h1 | h1
        · exact Or.inl (hmidP _ h1)
        · exact Or.inr ⟨rr, List.mem_singleton.mp h1⟩
      · rw [if_neg hq]
        intro a ha
        exact Or.inr ⟨"", List.mem_singleton.mp ha⟩
    rcases List.mem_cons.mp hmem with h1 | h1
    · exact absurd h1 (by simp)
    rcases List.mem_append.mp h1 with h2 | h2
    · rcases List.mem_cons.mp h2 with h3 | h3
      · exact absurd h3 (by simp)
      · exact absurd (List.mem_singleton.mp h3) (by simp)
    rcases List.mem_cons.mp h2 with h3 | h3
    · exact absurd h3 (by simp)
    rcases hresp _ h3 with hm | ⟨rr, hm⟩
    · rcases hm with ⟨s, heq⟩ | ⟨s, heq⟩ | ⟨s, heq⟩ | ⟨d, rr2, heq⟩ <;>
        exact absurd heq (by simp)
    · exact absurd hm (by simp)

/-- **C9 counterexample.** In the only configuration where realtime session
creation can raise (`stt_provider = "aliyun"`, realtime mode), the local VAD
is not loaded, and a turn whose session creation failed emits no
`vad_status` at all — even though the VAD oracle reports speech on the
chunk — contradicting the claim that a `vad_status` with the local VAD's
verdict is still emitted. -/
theorem C9_counterexample_no_vad_status :
    cfgHasCreateSession { stt_provider := "aliyun", aliyun_asr_mode := "realtime" } = true
    ∧ cfgVadLoaded { stt_provider := "aliyun", aliyun_asr_mode := "realtime" } = false
    ∧ failEnv.vadIsSpeech [1] = true
    ∧ ∀ b e, Act.emit (SEvent.vad_status b e) ∉ turnTrace failEnv initConn [[1]] := by
  refine ⟨rfl, rfl, rfl, ?_⟩
  intro b e hmem
  have hfilter : (turnTrace failEnv initConn [[1]]).filter isVadActB = [] := by decide
  have : Act.emit (SEvent.vad_status b e) ∈ (turnTrace failEnv initConn [[1]]).filter isVadActB :=
    List.mem_filter.mpr ⟨hmem, rfl⟩
  rw [hfilter] at this
  exact absurd this (List.not_mem_nil _)

/-- Witness for the amended C9 at the concrete failing-session turn. -/
theorem C9_amended_no_vad_after_session_failure_witness :
    Act.emit SEvent.listening_started ∈ turnTrace failEnv initConn [[1]]
    ∧ Act.callBatch ([[(1 : ℚ)]] : List (List ℚ)).flatten ∈ turnTrace failEnv initConn [[1]]
    ∧ ∀ b e, Act.emit (SEvent.vad_status b e) ∉ turnTrace failEnv initConn [[1]] :=
  C9_amended_no_vad_after_session_failure
    { stt_provider := "aliyun", aliyun_asr_mode := "realtime" }
    failEnv initConn [[1]] rfl rfl rfl rfl (by simp)

/-- Generic distribution of `filter` over `flatten`. -/
theorem filter_flatten_eq {α : Type} (p : α → Bool) (L : List (List α)) :
    (L.flatten).filter p = (L.map (List.filter p)).flatten := by
  induction L with
  | nil => rfl
  | cons s t ih => simp [List.filter_append, ih]

/-- A sentence's synthesis block consists purely of audio actions. -/
theorem synthSentence_filter (env : Env) (s : List Char) :
    (synthSentence env s).filter isAudioActB = synthSentence env s := by
  unfold synthSentence
  by_cases h : env.clean s.asString ≠ ""
  · rw [if_pos h]
    refine List.filter_eq_self.mpr ?_
    intro a ha
    rcases List.mem_cons.mp ha with rfl | h1
    · rfl
    · obtain ⟨ch, _, hc⟩ := List.mem_map.mp h1
      rw [← hc]
      rfl
  · rw [if_neg h]
    rfl

theorem synth_blocks_filter (env : Env) (ss : List (List Char)) :
    ((ss.map (synthSentence env)).flatten).filter isAudioActB
      = (ss.map (synthSentence env)).flatten := by
  induction ss with
  | nil => rfl
  | cons s t ih => simp [List.filter_append, synthSentence_filter, ih]

/-- Let-free unfolding of `respStep`. -/
theorem respStep_explicit (env : Env) (acc : String × List Char × List Act) (chunk : String) :
    respStep env acc chunk
      = (acc.1 ++ chunk, (extractSentences (acc.2.1 ++ chunk.toList)).2,
         acc.2.2 ++ Act.emit (SEvent.response_chunk chunk)
           :: ((extractSentences (acc.2.1 ++ chunk.toList)).1.map (synthSentence env)).flatten) := rfl

/-- Let-free unfolding of `feedFragments` on a cons. -/
theorem feedFragments_cons (buf x : List Char) (xs : List (List Char)) :
    feedFragments buf (x :: xs)
      = ((extractSentences (buf ++ x)).1 ++ (feedFragments (extractSentences (buf ++ x)).2 xs).1,
         (feedFragments (extractSentences (buf ++ x)).2 xs).2) := rfl

/-- Let-free unfolding of `streamSentences`. -/
theorem streamSentences_explicit (frags : List String) :
    streamSentences frags
      = (feedFragments [] (frags.map String.toList)).1
        ++ (if (trimChars (feedFragments [] (frags.map String.toList)).2).isEmpty
            then [] else [trimChars (feedFragments [] (frags.map String.toList)).2]) := rfl

/-- The responding fold's audio actions are exactly the per-sentence blocks
of the streaming segmentation, in sentence order, and its remainder buffer
tracks the segmenter's remainder. -/
theorem respFold_feed (env : Env) :
    ∀ (fs : List String) (full : String) (buf : List Char) (acts : List Act),
      ((fs.foldl (respStep env) (full, buf, acts)).2.2.filter isAudioActB
          = acts.filter isAudioActB
            ++ ((feedFragments buf (fs.map String.toList)).1.map (synthSentence env)).flatten)
      ∧ (fs.foldl (respStep env) (full, buf, acts)).2.1
          = (feedFragments buf (fs.map String.toList)).2 := by
  intro fs
  induction fs with
  | nil =>
    intro full buf acts
    exact ⟨by simp [feedFragments], rfl⟩
  | cons f fs ih =>
    intro full buf acts
    simp only [List.map_cons, List.foldl_cons, feedFragments_cons]
    rw [respStep_explicit]
    obtain ⟨ih1, ih2⟩ := ih (full ++ f) (extractSentences (buf ++ f.toList)).2
        (acts ++ Act.emit (SEvent.response_chunk f)
          :: ((extractSentences (buf ++ f.toList)).1.map (synthSentence env)).flatten)
    refine ⟨?_, ih2⟩
    rw [ih1, List.filter_append]
    have hchunk : (Act.emit (SEvent.response_chunk f)
        :: ((extractSentences (buf ++ f.toList)).1.map (synthSentence env)).flatten).filter
          isAudioActB
        = ((extractSentences (buf ++ f.toList)).1.map (synthSentence env)).flatten := by
      rw [List.filter_cons]
      rw [if_neg (by simp [isAudioActB])]
      exact synth_blocks_filter env _
    rw [hchunk]
    simp [List.map_append, List.flatten_append, List.append_assoc]

/-- Let-free unfolding of `respondActs`. -/
theorem respondActs_explicit (env : Env) (t : String) :
    respondActs env t
      = Act.callChat t :: ((env.chatChunks t).foldl (respStep env) ("", [], [])).2.2
        ++ (if (trimChars ((env.chatChunks t).foldl (respStep env) ("", [], [])).2.1).isEmpty
            then []
            else synthSentence env
              (trimChars ((env.chatChunks t).foldl (respStep env) ("", [], [])).2.1))
        ++ [Act.emit (SEvent.response_complete
            ((env.chatChunks t).foldl (respStep env) ("", [], [])).1)] := rfl

/-- The responding phase's audio actions are exactly the per-sentence blocks
of the streaming segmentation of the chat stream, flush included. -/
theorem respondActs_filter (env : Env) (t : String) :
    (respondActs env t).filter isAudioActB
      = ((streamSentences (env.chatChunks t)).map (synthSentence env)).flatten := by
  obtain ⟨h1, h2⟩ := respFold_feed env (env.chatChunks t) "" [] []
  rw [respondActs_explicit, streamSentences_explicit]
  rw [List.filter_append, List.filter_append, List.filter_cons]
  rw [if_neg (by simp [isAudioActB])]
  rw [h1, h2]
  simp only [List.filter_nil, List.nil_append, List.map_append, List.flatten_append]
  rw [show (List.filter isAudioActB [Act.emit (SEvent.response_complete
      ((env.chatChunks t).foldl (respStep env) ("", [], [])).1)]) = [] from by
    simp [isAudioActB]]
  rw [List.append_nil]
  congr 1
  by_cases hq : (trimChars (feedFragments [] ((env.chatChunks t).map String.toList)).2).isEmpty
  · rw [if_pos hq, if_pos hq]
    rfl
  · rw [if_neg hq, if_neg hq]
    rw [synthSentence_filter]
    simp

theorem vad_not_audio {l : List Act} (h : ∀ a ∈ l, isVadAct a) :
    l.filter isAudioActB = [] := by
  induction l with
  | nil => rfl
  | cons a t ih =>
    obtain ⟨b, e, rfl⟩ := h a (List.mem_cons_self _ _)
    rw [List.filter_cons, if_neg (by simp [isAudioActB])]
    exact ih (fun x hx => h x (List.mem_cons_of_mem _ hx))

/-- **C6.** Within one turn the synthesis actions are strictly sequential
per sentence: the subsequence of synthesis actions (each sentence's
`callTTS` followed by its `audio_chunk` emissions) is exactly the
concatenation, in sentence order, of the per-sentence synthesis blocks of
the streamed response — so every audio chunk of sentence N precedes every
action of sentence N+1, and sentence N+1's synthesis starts only after
sentence N's block is complete. -/
theorem C6_sequential_synthesis (env : Env) (st0 : ConnState) (chunks : List (List ℚ)) :
    (turnTrace env st0 chunks).filter isAudioActB
      = if pyStrip (turnTranscript env st0 chunks) ≠ ""
        then ((streamSentences (env.chatChunks (turnTranscript env st0 chunks))).map
            (synthSentence env)).flatten
        else [] := by
  rw [turnTrace_decomp]
  rw [List.filter_cons, if_neg (by simp [isAudioActB])]
  rw [List.filter_append]
  rw [vad_not_audio (audioRun_acts env chunks _ rfl), List.nil_append]
  rw [handleStop_acts]
  rw [List.filter_append]
  have hIF : ((Act.emit SEvent.listening_stopped
      :: (if (stopResolution env (turnStopState env st0 chunks)).2
          then [Act.callBatch (turnStopState env st0 chunks).audio_buffer.flatten]
          else [])).filter isAudioActB) = [] := by
    rw [List.filter_cons, if_neg (by simp [isAudioActB])]
    by_cases hb : (stopResolution env (turnStopState env st0 chunks)).2 = true
    · rw [if_pos hb]; simp [isAudioActB]
    · rw [if_neg hb]; rfl
  rw [hIF, List.nil_append]
  rw [List.filter_cons, if_neg (by simp [isAudioActB])]
  have htr : (stopResolution env (turnStopState env st0 chunks)).1
      = turnTranscript env st0 chunks := rfl
  rw [htr]
  by_cases hq : pyStrip (turnTranscript env st0 chunks) ≠ ""
  · rw [if_pos hq, if_pos hq, respondActs_filter]
  · rw [if_neg hq, if_neg hq]
    simp [isAudioActB]
